import Mathlib

/-!
Verification of the `PersistentFileLog` component (expo, Android logging):
a line-oriented append-only log file accessed through a serial dispatch
queue. The file system state is shallowly embedded as `Option Str`
(`none` = the file does not exist, `some s` = the file exists with
content `s`); Kotlin strings are embedded as lists of characters.
-/

/-- A Kotlin `String`, embedded as a list of characters. -/
abbrev Str := List Char

namespace PersistentFileLog

/-- Kotlin `text.split("\n")`: splits on the newline character; the empty
string yields one empty piece, and a delimiter at either end yields an
empty piece there. -/
def splitNl : Str → List Str
  | [] => [[]]
  | c :: cs =>
    if c = '\n' then [] :: splitNl cs
    else
      match splitNl cs with
      | [] => [[c]]
      | p :: ps => (c :: p) :: ps

/-- Kotlin `entries.joinToString("\n")`: concatenates the pieces with a
single newline between adjacent pieces. -/
def joinNl : List Str → Str
  | [] => []
  | [e] => e
  | e :: e2 :: es => e ++ '\n' :: joinNl (e2 :: es)

/-- Source `stringToList` (source lines 176-181): the empty string maps to zero
entries, any other string is split on the newline character. -/
def stringToList (text : Str) : List Str :=
  if text.length = 0 then [] else splitNl text

/-- Source `getFileSize` (source lines 141-155): 0 when the file does not exist,
otherwise the size of its content. -/
def getFileSize : Option Str → Nat
  | none => 0
  | some s => s.length

/-- Source `ensureFileExists` (source lines 131-139), success path: creates an
empty file when the file is absent, otherwise leaves it alone. -/
def ensureFileExists : Option Str → Option Str
  | none => some []
  | some s => some s

/-- Source `appendTextToFile` (source lines 157-159): `File.appendText`, which
appends to the existing content (creating the file when absent). -/
def appendTextToFile (text : Str) : Option Str → Option Str
  | none => some text
  | some s => some (s ++ text)

/-- Source `readFileLinesSync` (source lines 161-163): reads the whole file as
text and applies `stringToList`. Only ever called on an existing file;
an absent file is read as empty content here. -/
def readFileLinesSync (f : Option Str) : List Str :=
  stringToList (f.getD [])

/-- Source `writeFileLinesSync` (source lines 165-167): `File.writeText` of the
entries joined by newline, replacing any previous content. -/
def writeFileLinesSync (entries : List Str) : Option Str :=
  some (joinNl entries)

/-- Source `deleteFileSync` (source lines 169-174), success path: deletes the
file when present, a no-op when absent. -/
def deleteFileSync : Option Str → Option Str
  | _ => none

/-- Source `readEntries` (source lines 67-72): an absent or zero-size file reads
as the empty list; otherwise the content is split into lines. -/
def readEntries (f : Option Str) : List Str :=
  if getFileSize f = 0 then [] else readFileLinesSync f

/-- The body of `appendEntry` (source lines 78-94), success path: ensure
the file exists, then append the entry verbatim when the file size is 0
and with a preceding newline otherwise. -/
def appendEntry (entry : Str) (f : Option Str) : Option Str :=
  let f1 := ensureFileExists f
  let text := if getFileSize f1 = 0 then entry else '\n' :: entry
  appendTextToFile text f1

/-- The body of `filterEntries` (source lines 99-111), success path:
ensure the file exists, read all lines, keep those passing the filter,
rewrite the file with the survivors joined by newline. -/
def filterEntries (filter : Str → Bool) (f : Option Str) : Option Str :=
  let f1 := ensureFileExists f
  let contents := readFileLinesSync f1
  let reducedContents := contents.filter filter
  writeFileLinesSync reducedContents

/-- The body of `clearEntries` (source lines 116-125), success path:
delete the underlying file. -/
def clearEntries (f : Option Str) : Option Str :=
  deleteFileSync f

/-- Appending a list of entries one after the other, each append running
to completion before the next is submitted. -/
def appendAll (es : List Str) (f : Option Str) : Option Str :=
  es.foldl (fun acc e => appendEntry e acc) f

/-- The text a chain of appends adds after a nonempty prefix: every entry
is preceded by one newline. -/
def joinTail : List Str → Str
  | [] => []
  | e :: es => '\n' :: (e ++ joinTail es)

/-- The last character of a string, `none` for the empty string. -/
def lastChar : Str → Option Char
  | [] => none
  | [c] => some c
  | _ :: c :: cs => lastChar (c :: cs)

/-!
Fault model. The queued bodies of `appendEntry`, `filterEntries` and
`clearEntries` wrap their file system calls in a try/catch whose catch
clause names a throwable class: `appendEntry` and `clearEntries` catch
`Error` (the JVM class `java.lang.Error`), while `filterEntries` catches
`Throwable` and wraps it in an `Error`. The file system primitives throw
`java.io.IOException`, which is an `Exception`, not an `Error`; on the
JVM both `Error` and `Exception` are subclasses of `Throwable` and a
`catch` clause only matches throwables of its named class. The embedding
therefore tags each throwable with the branch of the JVM hierarchy it
lives in, and injects faults through an explicit record saying which
primitive calls fail.
-/

/-- A JVM throwable: either a `java.io.IOException` (a subclass of
`Exception`) or a `java.lang.Error`. -/
inductive Thr where
  | ioException : Thr
  | javaError : Thr
deriving DecidableEq

/-- Whether a `catch (e: Error)` clause matches the throwable: only
`java.lang.Error` and its subclasses do; an `IOException` does not. -/
def Thr.matchesCatchError : Thr → Bool
  | .ioException => false
  | .javaError => true

/-- What the submitter of a queued operation observes once the worker has
run its block: the completion callback fired with a null error, the
callback fired with a non-null error, or a throwable escaped the block
uncaught (so the callback never fired). -/
inductive Outcome where
  | ok : Outcome
  | callbackErr : Thr → Outcome
  | escaped : Thr → Outcome
deriving DecidableEq

/-- Fault injection for one queued operation: which of its file system
calls fail. `createOk` is the result of `File.createNewFile()`;
`deleteOk` is the result of `File.delete()`; the `...Err` fields make
the corresponding call throw an `IOException`. -/
structure Faults where
  createOk : Bool
  sizeErr : Bool
  appendErr : Bool
  readErr : Bool
  writeErr : Bool
  deleteOk : Bool
deriving DecidableEq

/-- Model of `ensureFileExists` under faults: when the file is absent and
`createNewFile` returns false, throws an `IOException` (source lines
131-139). -/
def ensureFileExistsF (fl : Faults) : Option Str → Except Thr (Option Str)
  | some s => .ok (some s)
  | none => if fl.createOk then .ok (some []) else .error .ioException

/-- Model of `getFileSize` under faults: an `IOException` while reading the size
is caught inside the function and the initial size 0 is returned
(source lines 141-155). This function never throws. -/
def getFileSizeF (fl : Faults) : Option Str → Nat
  | none => 0
  | some s => if fl.sizeErr then 0 else s.length

/-- Model of `appendTextToFile` under faults: `File.appendText` may throw an
`IOException`. -/
def appendTextToFileF (fl : Faults) (text : Str) (f : Option Str) :
    Except Thr (Option Str) :=
  if fl.appendErr then .error .ioException
  else .ok (some (f.getD [] ++ text))

/-- Model of `readFileLinesSync` under faults: `File.readText` may throw an
`IOException`. -/
def readFileLinesSyncF (fl : Faults) (f : Option Str) : Except Thr (List Str) :=
  if fl.readErr then .error .ioException else .ok (stringToList (f.getD []))

/-- Model of `writeFileLinesSync` under faults: `File.writeText` may throw an
`IOException`. -/
def writeFileLinesSyncF (fl : Faults) (entries : List Str) :
    Except Thr (Option Str) :=
  if fl.writeErr then .error .ioException else .ok (some (joinNl entries))

/-- Model of `deleteFileSync` under faults: `File.delete()` returns a boolean that
the source discards (source lines 169-174), so a failed deletion leaves
the file in place and nothing is thrown. -/
def deleteFileSyncF (fl : Faults) : Option Str → Option Str
  | none => none
  | some s => if fl.deleteOk then none else some s

/-- The queued block of `appendEntry` (source lines 79-93): runs
ensure/size/append and ends in `catch (e: Error)`, so a throwable that is
not a `java.lang.Error` escapes the block uncaught. Returns the file
state and the outcome observed by the submitter. -/
def appendEntryF (entry : Str) (fl : Faults) (f : Option Str) :
    Option Str × Outcome :=
  match ensureFileExistsF fl f with
  | .error e =>
    (f, if e.matchesCatchError then .callbackErr e else .escaped e)
  | .ok f1 =>
    let text := if getFileSizeF fl f1 = 0 then entry else '\n' :: entry
    match appendTextToFileF fl text f1 with
    | .error e =>
      (f1, if e.matchesCatchError then .callbackErr e else .escaped e)
    | .ok f2 => (f2, .ok)

/-- The queued block of `filterEntries` (source lines 100-110): runs
ensure/read/filter/write and ends in `catch (e: Throwable)`, which
matches every throwable and hands the callback `Error(e)`, a non-null
error value. -/
def filterEntriesF (filter : Str → Bool) (fl : Faults) (f : Option Str) :
    Option Str × Outcome :=
  match ensureFileExistsF fl f with
  | .error e => (f, .callbackErr e)
  | .ok f1 =>
    match readFileLinesSyncF fl f1 with
    | .error e => (f1, .callbackErr e)
    | .ok contents =>
      match writeFileLinesSyncF fl (contents.filter filter) with
      | .error e => (f1, .callbackErr e)
      | .ok f2 => (f2, .ok)

/-- The queued block of `clearEntries` (source lines 117-124): deletes
the file; `deleteFileSync` throws nothing (the `delete()` result is
discarded), so the callback always receives null. -/
def clearEntriesF (fl : Faults) (f : Option Str) : Option Str × Outcome :=
  (deleteFileSyncF fl f, .ok)

/-!
Worker model. `PersistentFileLogSerialDispatchQueue` (source lines
192-206) holds a FIFO channel of blocks; `add` sends a block to the back
of the channel, and the single consumer coroutine repeatedly receives the
front block and runs it to completion before receiving the next. The
embedding records the channel as a list in arrival order and models the
consumer as a step function that removes exactly one block from the front
per step, runs it on the file state, and appends it to the execution
trace.
-/

/-- A queued mutating operation. -/
inductive Op where
  | append : Str → Op
  | filter : (Str → Bool) → Op
  | clear : Op

/-- Running one operation's queued block on the file state (success
path). -/
def runOp : Op → Option Str → Option Str
  | .append e, f => appendEntry e f
  | .filter p, f => filterEntries p f
  | .clear, f => clearEntries f

/-- The FIFO channel of the serial dispatch queue, in arrival order
(front first). -/
structure PersistentFileLogSerialDispatchQueue where
  channel : List Op

/-- Source `add` (source line 196): sends the block to the back of the channel. -/
def PersistentFileLogSerialDispatchQueue.add
    (q : PersistentFileLogSerialDispatchQueue) (block : Op) :
    PersistentFileLogSerialDispatchQueue :=
  ⟨q.channel ++ [block]⟩

/-- The worker's view: the pending channel, the file state, and the trace
of operations already executed, in execution order. -/
structure WorkerState where
  pending : List Op
  file : Option Str
  executed : List Op

/-- One iteration of the consumer loop (source lines 203-205): receive
the front block and run it. An empty channel blocks, leaving the state
unchanged. -/
def workerStep : WorkerState → WorkerState
  | ⟨[], f, ex⟩ => ⟨[], f, ex⟩
  | ⟨op :: rest, f, ex⟩ => ⟨rest, runOp op f, ex ++ [op]⟩

/-- Iterating the consumer loop. -/
def workerSteps : Nat → WorkerState → WorkerState
  | 0, s => s
  | n + 1, s => workerSteps n (workerStep s)

end PersistentFileLog

namespace PersistentFileLog

/-- Splitting never produces the empty list of pieces. -/
theorem splitNl_ne_nil (s : Str) : splitNl s ≠ [] := by
  cases s with
  | nil => simp [splitNl]
  | cons c cs =>
    simp only [splitNl]
    split
    · simp
    · split
      · simp
      · simp

/-- A newline-free string splits into the single piece that is itself. -/
theorem splitNl_no_newline (s : Str) (h : '\n' ∉ s) : splitNl s = [s] := by
  induction s with
  | nil => rfl
  | cons c cs ih =>
    have hc : ¬ c = '\n' := fun hc => h (hc ▸ List.mem_cons_self c cs)
    have hcs : '\n' ∉ cs := fun hm => h (List.mem_cons_of_mem c hm)
    simp only [splitNl, if_neg hc, ih hcs]

/-- Splitting a string that starts with a newline-free piece followed by a
newline peels off that piece. -/
theorem splitNl_append (a rest : Str) (h : '\n' ∉ a) :
    splitNl (a ++ '\n' :: rest) = a :: splitNl rest := by
  induction a with
  | nil => simp [splitNl]
  | cons c a ih =>
    have hc : ¬ c = '\n' := fun hc => h (hc ▸ List.mem_cons_self c a)
    have ha : '\n' ∉ a := fun hm => h (List.mem_cons_of_mem c hm)
    simp only [List.cons_append, splitNl, if_neg hc, List.append_eq, ih ha]

/-- Unfolding `joinNl` on a cons cell with a nonempty tail. -/
theorem joinNl_cons (e : Str) (es : List Str) (h : es ≠ []) :
    joinNl (e :: es) = e ++ '\n' :: joinNl es := by
  cases es with
  | nil => exact absurd rfl h
  | cons e2 es => rfl

/-- Splitting is a left inverse of joining, for a nonempty list of
newline-free pieces. -/
theorem splitNl_joinNl (es : List Str) (hne : es ≠ [])
    (hnl : ∀ e ∈ es, '\n' ∉ e) : splitNl (joinNl es) = es := by
  induction es with
  | nil => exact absurd rfl hne
  | cons e es ih =>
    cases es with
    | nil => simpa [joinNl] using splitNl_no_newline e (hnl e (by simp))
    | cons e2 es2 =>
      rw [joinNl_cons e (e2 :: es2) (by simp),
        splitNl_append e (joinNl (e2 :: es2)) (hnl e (by simp)),
        ih (by simp) (fun x hx => hnl x (List.mem_cons_of_mem e hx))]

/-- Joining is a left inverse of splitting: rewriting a file with the
pieces of its own content reproduces the content exactly. -/
theorem joinNl_splitNl (s : Str) : joinNl (splitNl s) = s := by
  induction s with
  | nil => rfl
  | cons c cs ih =>
    by_cases hc : c = '\n'
    · subst hc
      have h1 : splitNl ('\n' :: cs) = [] :: splitNl cs := by simp [splitNl]
      rw [h1, joinNl_cons [] (splitNl cs) (splitNl_ne_nil cs), ih]
      rfl
    · simp only [splitNl, if_neg hc]
      cases hs : splitNl cs with
      | nil => exact absurd hs (splitNl_ne_nil cs)
      | cons p ps =>
        cases ps with
        | nil =>
          have : joinNl [p] = cs := by rw [← hs, ih]
          simp only [joinNl] at this ⊢
          rw [this]
        | cons p2 ps2 =>
          rw [joinNl_cons (c :: p) (p2 :: ps2) (by simp), List.cons_append,
            ← joinNl_cons p (p2 :: ps2) (by simp), ← hs, ih]

/-- Round trip through `stringToList`: joining the parsed entries of any
content gives back that content. -/
theorem joinNl_stringToList (s : Str) : joinNl (stringToList s) = s := by
  by_cases h : s.length = 0
  · rw [List.length_eq_zero] at h
    subst h
    rfl
  · simp only [stringToList, if_neg h, joinNl_splitNl]

/-- Joining a cons cell is the head followed by the tail text. -/
theorem joinNl_eq_head_joinTail (e : Str) (es : List Str) :
    joinNl (e :: es) = e ++ joinTail es := by
  induction es generalizing e with
  | nil => simp [joinNl, joinTail]
  | cons e2 es2 ih =>
    rw [joinNl_cons e (e2 :: es2) (by simp), ih e2]
    simp [joinTail]

/-- Appending to an existing nonempty file adds a newline and the entry. -/
theorem appendEntry_some_ne_nil (e s : Str) (h : s ≠ []) :
    appendEntry e (some s) = some (s ++ '\n' :: e) := by
  have hl : ¬ s.length = 0 := fun h0 => h (List.length_eq_zero.mp h0)
  simp [appendEntry, ensureFileExists, getFileSize, appendTextToFile, hl]

/-- A chain of appends starting from a nonempty file adds exactly the
joined tail text, each entry preceded by one newline. -/
theorem appendAll_some_ne_nil (es : List Str) (s : Str) (h : s ≠ []) :
    appendAll es (some s) = some (s ++ joinTail es) := by
  induction es generalizing s with
  | nil => simp [appendAll, joinTail]
  | cons e es ih =>
    have h1 : appendAll (e :: es) (some s) = appendAll es (appendEntry e (some s)) := rfl
    rw [h1, appendEntry_some_ne_nil e s h, ih (s ++ '\n' :: e) (by simp)]
    simp [joinTail]

/-- Reading an existing file is exactly `stringToList` of its content. -/
theorem readEntries_some (s : Str) : readEntries (some s) = stringToList s := by
  by_cases h : s.length = 0
  · rw [List.length_eq_zero] at h
    subst h
    rfl
  · simp [readEntries, readFileLinesSync, getFileSize, h]

/-- The last character of an append with a nonempty right part is the
last character of the right part. -/
theorem lastChar_append (a b : Str) (hb : b ≠ []) :
    lastChar (a ++ b) = lastChar b := by
  induction a with
  | nil => rfl
  | cons c a ih =>
    cases h : a ++ b with
    | nil => exact absurd (List.append_eq_nil.mp h).2 hb
    | cons x xs =>
      have h1 : lastChar (c :: a ++ b) = lastChar (a ++ b) := by
        rw [List.cons_append, h]
        rfl
      rw [h1, ih]

/-- Folding `add` over a list of blocks appends them to the channel in
submission order. -/
theorem queue_add_foldl (ops : List Op) (q : PersistentFileLogSerialDispatchQueue) :
    (ops.foldl PersistentFileLogSerialDispatchQueue.add q).channel
      = q.channel ++ ops := by
  induction ops generalizing q with
  | nil => simp
  | cons op ops ih =>
    rw [List.foldl_cons, ih]
    simp [PersistentFileLogSerialDispatchQueue.add]

/-- After `k` iterations of the consumer loop on a channel with at least
`k` pending blocks, exactly the first `k` blocks have been executed, in
channel order, and the rest are still pending. -/
theorem workerSteps_spec (k : Nat) (ops : List Op) (f : Option Str) (ex : List Op)
    (hk : k ≤ ops.length) :
    workerSteps k ⟨ops, f, ex⟩
      = ⟨ops.drop k, (ops.take k).foldl (fun s op => runOp op s) f,
          ex ++ ops.take k⟩ := by
  induction k generalizing ops f ex with
  | zero => simp [workerSteps]
  | succ k ih =>
    cases ops with
    | nil => exact absurd hk (by simp)
    | cons op rest =>
      have hk2 : k ≤ rest.length := Nat.succ_le_succ_iff.mp (by simpa using hk)
      have h1 : workerSteps (k + 1) ⟨op :: rest, f, ex⟩
          = workerSteps k ⟨rest, runOp op f, ex ++ [op]⟩ := rfl
      rw [h1, ih rest (runOp op f) (ex ++ [op]) hk2]
      simp

end PersistentFileLog

open PersistentFileLog

/-- C3 fails on the code: when the file is absent and `createNewFile`
returns false, the `IOException` thrown by `ensureFileExists` inside the
queued block of `appendEntry` is not matched by the block's
`catch (e: Error)` clause, so it escapes the block uncaught and the
completion callback never fires with an error. -/
theorem c3_append_create_failure_escapes_catch :
    appendEntryF ['A'] ⟨false, false, false, false, false, true⟩ none
      = (none, Outcome.escaped Thr.ioException) ∧
    Thr.ioException.matchesCatchError = false := by decide

/-- C7: clearEntries on a non-existent file is a no-op that completes
successfully, invoking the completion callback with a null error under
every fault assignment, and leaving the file absent. -/
theorem c7_clear_absent_file_succeeds (fl : Faults) :
    clearEntriesF fl none = (none, Outcome.ok) ∧ clearEntries none = none :=
  ⟨rfl, rfl⟩

/-- C8, as stated, fails: when `File.delete()` fails (returns false) on
an existing file, clearEntries still invokes the completion callback
with a null error, leaving the file in place. -/
theorem c8_counterexample_delete_failure_ignored :
    clearEntriesF ⟨true, false, false, false, false, false⟩ (some ['A'])
      = (some ['A'], Outcome.ok) := by decide

/-- C8 (amended): a failure to remove the underlying file during
clearEntries is silently ignored: the completion callback receives a
null error and the file keeps its previous content. -/
theorem c8_delete_failure_silently_ignored (f : Option Str) (fl : Faults)
    (h : fl.deleteOk = false) :
    (clearEntriesF fl f).2 = Outcome.ok ∧
    (∀ s, f = some s → (clearEntriesF fl f).1 = some s) := by
  refine ⟨rfl, ?_⟩
  intro s hs
  subst hs
  simp [clearEntriesF, deleteFileSyncF, h]

/-- C8 witness: the amended theorem applied to the file containing "A"
with a failing delete. -/
theorem c8_delete_failure_silently_ignored_witness :
    (clearEntriesF ⟨true, true, true, true, true, false⟩ (some ['A'])).2
      = Outcome.ok ∧
    (clearEntriesF ⟨true, true, true, true, true, false⟩ (some ['A'])).1
      = some ['A'] := by
  have h := c8_delete_failure_silently_ignored (some ['A'])
    ⟨true, true, true, true, true, false⟩ rfl
  exact ⟨h.1, h.2 ['A'] rfl⟩

/-- C9: blocks submitted to the serial dispatch queue line up in the
channel in submission order, and the single consumer executes exactly one
block per iteration, in strict FIFO order, never reordering: after `k`
iterations precisely the first `k` submitted operations have run, and
after as many iterations as submissions the executed trace is exactly the
submission sequence and the file state is their sequential composition. -/
theorem c9_serial_queue_fifo_order (ops : List Op) (f : Option Str) (k : Nat)
    (hk : k ≤ ops.length) :
    (ops.foldl PersistentFileLogSerialDispatchQueue.add ⟨[]⟩).channel = ops ∧
    (workerSteps k ⟨ops, f, []⟩).executed = ops.take k ∧
    (workerSteps k ⟨ops, f, []⟩).pending = ops.drop k ∧
    (workerSteps ops.length ⟨ops, f, []⟩).executed = ops ∧
    (workerSteps ops.length ⟨ops, f, []⟩).file
      = ops.foldl (fun s op => runOp op s) f := by
  have h1 := workerSteps_spec k ops f [] hk
  have h2 := workerSteps_spec ops.length ops f [] (le_refl _)
  rw [queue_add_foldl]
  rw [h1, h2]
  simp

/-- C9 witness: the theorem applied to the submission sequence
[clear, append "A"] after one consumer iteration. -/
theorem c9_serial_queue_fifo_order_witness :
    (([Op.clear, Op.append ['A']].foldl
        PersistentFileLogSerialDispatchQueue.add ⟨[]⟩).channel
      = [Op.clear, Op.append ['A']]) ∧
    (workerSteps 1 ⟨[Op.clear, Op.append ['A']], none, []⟩).executed
      = List.take 1 [Op.clear, Op.append ['A']] ∧
    (workerSteps 1 ⟨[Op.clear, Op.append ['A']], none, []⟩).pending
      = List.drop 1 [Op.clear, Op.append ['A']] ∧
    (workerSteps 2 ⟨[Op.clear, Op.append ['A']], none, []⟩).executed
      = [Op.clear, Op.append ['A']] ∧
    (workerSteps 2 ⟨[Op.clear, Op.append ['A']], none, []⟩).file
      = [Op.clear, Op.append ['A']].foldl (fun s op => runOp op s) none :=
  c9_serial_queue_fifo_order [Op.clear, Op.append ['A']] none 1 (by decide)

/-- C1, as stated, fails: appending the single empty entry (a string
without newline) to a fresh log and reading back yields the empty list,
not the one-element list containing the empty string. -/
theorem c1_counterexample_empty_entry :
    readEntries (appendAll [([] : Str)] none) = [] ∧
    readEntries (appendAll [([] : Str)] none) ≠ [([] : Str)] := by decide

/-- C1 (amended): for every finite sequence of newline-free entries whose
first entry is nonempty, appending them all to a log starting from a
non-existent file and then reading returns exactly those entries in
submission order, as a list of the same length with no empty entries
introduced at boundaries. -/
theorem c1_append_all_then_read_returns_entries (es : List Str)
    (hnl : ∀ e ∈ es, '\n' ∉ e) (hhd : es.head? ≠ some ([] : Str)) :
    readEntries (appendAll es none) = es ∧
    (readEntries (appendAll es none)).length = es.length := by
  cases es with
  | nil => exact ⟨rfl, rfl⟩
  | cons e es =>
    have he : e ≠ [] := by
      intro h
      exact hhd (by rw [h]; rfl)
    have h1 : appendAll (e :: es) none = some (e ++ joinTail es) := by
      have h0 : appendAll (e :: es) none = appendAll es (some e) := rfl
      rw [h0, appendAll_some_ne_nil es e he]
    have hje : joinNl (e :: es) = e ++ joinTail es := joinNl_eq_head_joinTail e es
    have hne : e ++ joinTail es ≠ [] := by
      intro h
      exact he (List.append_eq_nil.mp h).1
    have h2 : readEntries (appendAll (e :: es) none) = e :: es := by
      have hl : ¬ (e ++ joinTail es).length = 0 := fun h0 => hne (List.length_eq_zero.mp h0)
      rw [h1, readEntries_some, stringToList, if_neg hl, ← hje,
        splitNl_joinNl (e :: es) (by simp) hnl]
    exact ⟨h2, by rw [h2]⟩

/-- C1 witness: the amended theorem applied to the concrete entry
sequence ["A", "B"]. -/
theorem c1_append_all_then_read_returns_entries_witness :
    readEntries (appendAll [['A'], ['B']] none) = [['A'], ['B']] ∧
    (readEntries (appendAll [['A'], ['B']] none)).length
      = ([['A'], ['B']] : List Str).length :=
  c1_append_all_then_read_returns_entries [['A'], ['B']] (by decide) (by decide)

/-- C2: starting from a non-existent file, append "A", append "B",
filter with the predicate keeping entries different from "A", append
"C"; reading then yields exactly ["B", "C"]. -/
theorem c2_scenario_append_filter_append :
    readEntries
      (appendEntry ['C']
        (filterEntries (fun e => decide (e ≠ (['A'] : Str)))
          (appendEntry ['B'] (appendEntry ['A'] none))))
    = [['B'], ['C']] := by decide

/-- C4, as stated, fails: appending the empty entry to a file whose
content is "A" produces the content "A\n", which ends with a trailing
newline. -/
theorem c4_counterexample_empty_entry_trailing_newline :
    appendEntry [] (some ['A']) = some ['A', '\n'] ∧
    lastChar ['A', '\n'] = some '\n' := by decide

/-- C4 (amended): for every nonempty entry whose last character is not a
newline and every starting file state, appendEntry writes the entry
verbatim when the file is absent or empty, and writes a newline followed
by the entry appended to the existing content otherwise; consequently
the file content never ends with a trailing newline after the append. -/
theorem c4_append_shape_no_trailing_newline (entry : Str) (f : Option Str)
    (h1 : entry ≠ []) (h2 : lastChar entry ≠ some '\n') :
    ((f = none ∨ f = some []) → appendEntry entry f = some entry) ∧
    (∀ s, f = some s → s ≠ [] → appendEntry entry f = some (s ++ '\n' :: entry)) ∧
    (∀ c, appendEntry entry f = some c → lastChar c ≠ some '\n') := by
  refine ⟨?_, ?_, ?_⟩
  · rintro (rfl | rfl) <;> rfl
  · rintro s rfl hs
    exact appendEntry_some_ne_nil entry s hs
  · intro c hc
    match f with
    | none =>
      have h0 : some entry = some c := hc
      injection h0 with h0
      subst h0
      exact h2
    | some s =>
      by_cases hs : s = []
      · subst hs
        have h0 : some entry = some c := hc
        injection h0 with h0
        subst h0
        exact h2
      · rw [appendEntry_some_ne_nil entry s hs] at hc
        injection hc with hc
        subst hc
        have hsplit : s ++ '\n' :: entry = (s ++ ['\n']) ++ entry := by simp
        rw [hsplit, lastChar_append (s ++ ['\n']) entry h1]
        exact h2

/-- C4 witness: the amended theorem applied to entry "B" on the file
containing "A". -/
theorem c4_append_shape_no_trailing_newline_witness :
    appendEntry ['B'] (some ['A']) = some (['A'] ++ '\n' :: ['B']) ∧
    lastChar (['A'] ++ '\n' :: ['B']) ≠ some '\n' := by
  have h := c4_append_shape_no_trailing_newline ['B'] (some ['A'])
    (by decide) (by decide)
  have h1 := h.2.1 ['A'] rfl (by decide)
  exact ⟨h1, h.2.2 (['A'] ++ '\n' :: ['B']) h1⟩

/-- C5: reading a log whose file does not exist or has zero size returns
the empty list, never a list containing one empty string. -/
theorem c5_read_absent_or_empty (f : Option Str) (h : f = none ∨ f = some []) :
    readEntries f = [] ∧ readEntries f ≠ [([] : Str)] := by
  rcases h with rfl | rfl <;> exact ⟨rfl, by decide⟩

/-- C5 witness: the theorem applied to the non-existent file. -/
theorem c5_read_absent_or_empty_witness :
    readEntries none = [] ∧ readEntries none ≠ [([] : Str)] :=
  c5_read_absent_or_empty none (Or.inl rfl)

/-- C6: filtering with the always-true predicate preserves the content of
an existing file, is idempotent, and does not change what a read returns;
filtering with the always-false predicate makes a subsequent read return
the empty list, the same observable result as reading after clearEntries. -/
theorem c6_filter_true_noop_filter_false_clears (f : Option Str) :
    (∀ s, f = some s → filterEntries (fun _ => true) f = some s) ∧
    filterEntries (fun _ => true) (filterEntries (fun _ => true) f)
      = filterEntries (fun _ => true) f ∧
    readEntries (filterEntries (fun _ => true) f) = readEntries f ∧
    readEntries (filterEntries (fun _ => false) f) = [] ∧
    readEntries (filterEntries (fun _ => false) f) = readEntries (clearEntries f) := by
  have hft : ∀ g : Option Str, filterEntries (fun _ => true) g = some (g.getD []) := by
    intro g
    show writeFileLinesSync ((readFileLinesSync (ensureFileExists g)).filter (fun _ => true))
      = some (g.getD [])
    cases g with
    | none =>
      rw [List.filter_true]
      rfl
    | some s =>
      have h1 : readFileLinesSync (ensureFileExists (some s)) = stringToList s := rfl
      rw [h1, List.filter_true, writeFileLinesSync, joinNl_stringToList]
      rfl
  have hff : filterEntries (fun _ => false) f = some [] := by
    show writeFileLinesSync ((readFileLinesSync (ensureFileExists f)).filter (fun _ => false))
      = some []
    rw [List.filter_false]
    rfl
  refine ⟨?_, ?_, ?_, ?_, ?_⟩
  · intro s hs
    subst hs
    exact hft (some s)
  · rw [hft f, hft (some (f.getD []))]
    rfl
  · rw [hft f, readEntries_some]
    cases f with
    | none => rfl
    | some s => rw [readEntries_some]; rfl
  · rw [hff]
    rfl
  · rw [hff]
    rfl

/-- C6 witness: the theorem applied to the file containing "A". -/
theorem c6_filter_true_noop_filter_false_clears_witness :
    filterEntries (fun _ => true) (some ['A']) = some (['A'] : Str) :=
  (c6_filter_true_noop_filter_false_clears (some ['A'])).1 ['A'] rfl

/-- C10: appending the empty entry to a non-existent or empty log leaves
the file at zero size, a subsequent read returns the empty list (not a
list with one empty string), and a later append still writes its entry
verbatim with no leading newline. -/
theorem c10_append_empty_entry_lost (f : Option Str) (h : f = none ∨ f = some []) :
    appendEntry [] f = some [] ∧
    getFileSize (appendEntry [] f) = 0 ∧
    readEntries (appendEntry [] f) = [] ∧
    readEntries (appendEntry [] f) ≠ [([] : Str)] ∧
    ∀ e : Str, appendEntry e (appendEntry [] f) = some e := by
  rcases h with rfl | rfl <;>
    exact ⟨rfl, rfl, rfl, by decide, fun e => rfl⟩

/-- C10 witness: the theorem applied to the non-existent file, with the
later entry "X". -/
theorem c10_append_empty_entry_lost_witness :
    appendEntry [] (none : Option Str) = some [] ∧
    readEntries (appendEntry [] (none : Option Str)) = [] ∧
    appendEntry ['X'] (appendEntry [] (none : Option Str)) = some ['X'] := by
  have h := c10_append_empty_entry_lost none (Or.inl rfl)
  exact ⟨h.1, h.2.2.1, h.2.2.2.2 ['X']⟩
